import Mathlib

/-!
Verification development for the `mana` incremental man-page index.

The definitions below are a shallow embedding of the Python sources:
  * `src/mana/manpage/parser.py`   (summary extraction)
  * `src/mana/rag/database.py`     (load / save / build / search)

Conventions of the embedding:
  * Python strings are modelled through their character lists (`String.data`),
    with ASCII semantics for `str.strip`, `str.isupper`, `str.split`.
  * The FAISS index is an opaque collaborator: `IndexFlatL2` stores its vectors
    verbatim, so it is modelled as the list of (normalised) vectors it holds,
    together with a flag saying whether `reconstruct` succeeds.  `normalize_L2`
    is an opaque row-wise operation supplied by the environment; the real-valued
    instantiation `realNormalize` is used where unit norms matter.
  * The sentence-transformer encoder is opaque: an environment function from a
    batch of texts to `Except Unit (List V)`; `.error` models a raised
    exception during encoding.
  * File system state is a `DiskState`: for each of the three artifacts,
    `none` = file missing, `some none` = file present but failing to parse,
    `some (some x)` = file present and parsing to `x`.  Exception handling in
    the Python code corresponds to the `Option` layers.
  * Vectors are a type parameter `V`; concrete evaluations use `List ℚ`
    (exact arithmetic), and the unit-norm statements use `List ℝ`.
-/

set_option maxRecDepth 10000

namespace Mana

/-! ### Python string primitives (ASCII model) -/

/-- Python `s[:n]` (slice of the first `n` characters). -/
def pyTake (s : String) (n : Nat) : String := String.mk (s.data.take n)

/-- Python `s[n:]` (drop the first `n` characters). -/
def pyDrop (s : String) (n : Nat) : String := String.mk (s.data.drop n)

/-- Python `s.startswith(p)`. -/
def pyStartsWith (s p : String) : Bool := p.data.isPrefixOf s.data

/-- Python `s.strip()` (ASCII whitespace). -/
def pyStrip (s : String) : String :=
  String.mk (((s.data.dropWhile Char.isWhitespace).reverse.dropWhile
    Char.isWhitespace).reverse)

/-- Python `s.isupper()` restricted to ASCII: at least one cased character and
no lower-case character. -/
def pyIsUpper (s : String) : Bool :=
  s.data.any (fun c => c.isUpper || c.isLower) && s.data.all (fun c => !c.isLower)

/-- Python `s.split('\n')`. -/
def pyLines (s : String) : List String :=
  (s.data.splitOn '\n').map String.mk

/-- Python `s.split()` (split on whitespace runs, dropping empty pieces). -/
def pyWords (s : String) : List String :=
  ((s.data.splitOnP (fun c => c.isWhitespace)).filter (fun w => w ≠ [])).map String.mk

/-- Python `' '.join(parts)`. -/
def pyJoin (parts : List String) : String :=
  String.mk (List.intercalate [' '] (parts.map String.data))

/-- Python `sorted(l)` for strings (a stable comparison sort; on a list of
strings every correct sort by `≤` yields the same list). -/
def pySorted (l : List String) : List String :=
  List.insertionSort (fun a b => a ≤ b) l

/-- Python `sorted(set(l))`: the sorted list of the distinct elements of `l`.
(The iteration order of a Python set is unspecified, but sorting makes the
result canonical, so any duplicate-removal yields the same value.) -/
def pySortedSet (l : List String) : List String :=
  List.insertionSort (fun a b => a ≤ b) l.dedup

/-! ### `src/mana/manpage/parser.py` : `extract_name_section` -/

/-- The loop of the troff branch of `extract_name_section`: walking the lines
with state `(in_name_section, description_parts)` and returning the collected
description parts.  (The `names` list accumulated by the Python code is dead
for the returned description, so it is not tracked.) -/
def troffLoop : List String → Bool → List String → List String
  | [], _, parts => parts
  | l :: ls, inName, parts =>
    let s := pyStrip l
    if s = ".Sh NAME" then troffLoop ls true parts
    else if inName && pyStartsWith s ".Sh " then parts
    else if inName then
      if pyStartsWith s ".Nm" then troffLoop ls inName parts
      else if pyStartsWith s ".Nd" then
        troffLoop ls inName (parts ++ [pyStrip (pyDrop s 3)])
      else if !pyStartsWith s "." && s ≠ "" then troffLoop ls inName (parts ++ [s])
      else troffLoop ls inName parts
    else troffLoop ls inName parts

/-- Description produced by the troff branch of `extract_name_section`. -/
def troffDescription (lines : List String) : String :=
  let parts := troffLoop lines false []
  if parts ≠ [] then pyStrip (pyJoin parts) else ""

/-- The loop of the plain-text branch: collect the stripped lines of the NAME
section (stopping at the next all-caps heading, or at a blank line after
content has been collected). -/
def plainNameLoop : List String → Bool → List String → List String
  | [], _, acc => acc
  | l :: ls, inName, acc =>
    let s := pyStrip l
    if s = "NAME" ∨ s = "N\x08NA\x08AM\x08ME\x08E" then plainNameLoop ls true acc
    else if inName then
      if s ≠ "" ∧ pyIsUpper s ∧ s.length > 3 then acc
      else if s ≠ "" then plainNameLoop ls inName (acc ++ [s])
      else if acc ≠ [] then acc
      else plainNameLoop ls inName acc
    else plainNameLoop ls inName acc

/-- Backspace-overstrike collapse: each `'\x08'` deletes the previously
emitted character. -/
def collapseBackspaces (s : String) : String :=
  String.mk (s.data.foldl
    (fun acc c => if c = '\x08' then acc.dropLast else acc ++ [c]) [])

/-- Description produced by the plain-text branch of `extract_name_section`. -/
def plainDescription (lines : List String) : String :=
  collapseBackspaces (pyStrip (pyJoin (plainNameLoop lines false [])))

/-- A line qualifying for the fallback scan: stripped form nonempty, longer
than 20 characters and not all-uppercase. -/
def substantialLine (l : String) : Bool :=
  pyStrip l ≠ "" && (pyStrip l).length > 20 && !pyIsUpper (pyStrip l)

/-- The fallback scan: the stripped form of the first qualifying line
(`""` when no line qualifies). -/
def firstSubstantial (ls : List String) : String :=
  match ls.find? substantialLine with
  | some l => pyStrip l
  | none => ""

/-- `extract_name_section(program, man_page_text)` from
`src/mana/manpage/parser.py`. -/
def extract_name_section (program text : String) : String :=
  let lines := pyLines text
  let isTroff := (lines.take 20).any (fun l => pyStartsWith l ".")
  let description := if isTroff then troffDescription lines else plainDescription lines
  let description := if description = "" then firstSubstantial (lines.take 20) else description
  if description ≠ "" then description else program ++ " - command-line utility"

/-! ### Data model -/

variable {V : Type}

/-- One entry record (a "chunk" in `database.py`): one per indexed program.
`similarity` models the optional `'similarity'` key that search attaches to
its result copies; chunks created by the build never carry it. -/
structure Chunk where
  program : String
  text : String
  semantic_summary : String
  line_count : Nat
  word_count : Nat
  char_count : Nat
  similarity : Option ℚ := none
deriving DecidableEq, Inhabited

/-- The chunk the build creates for a resolved program
(`database.py` lines 246-263). -/
def mkChunk (program text : String) : Chunk :=
  { program := program
    text := text
    semantic_summary := extract_name_section program text
    line_count := (pyLines text).length
    word_count := (pyWords text).length
    char_count := text.length }

/-- The metadata document written by `save_vector_database`. -/
structure Metadata where
  num_chunks : Nat
  num_programs : Nat
  dimension : Nat
  indexed_at : String
  programs : List String
deriving DecidableEq, Inhabited

/-- The FAISS `IndexFlatL2` as an opaque collaborator: it stores its vectors
verbatim; `reconstructOk` says whether `reconstruct(i)` succeeds (the build
defends against it raising, `database.py` lines 128-136). -/
structure FaissIndex (V : Type) where
  vectors : List V
  reconstructOk : Bool
deriving DecidableEq, Inhabited

/-- On-disk state of the three artifacts.  For each artifact: `none` = file
missing, `some none` = present but unreadable/unparsable, `some (some x)` =
present and parsing to `x`. -/
structure DiskState (V : Type) where
  faissFile : Option (Option (FaissIndex V))
  chunksFile : Option (Option (List Chunk))
  metadataFile : Option (Option Metadata)
deriving DecidableEq, Inhabited

/-- An in-memory snapshot as produced by `save_vector_database`: the neighbor
structure's vectors, the entry records, and the metadata document. -/
structure Store (V : Type) where
  vectors : List V
  chunks : List Chunk
  metadata : Metadata
deriving DecidableEq, Inhabited

/-- `load_vector_database` (`database.py` lines 25-41): requires the FAISS
file and the chunks file to exist, catches any read/parse exception and
returns `none`.  Note that the metadata file plays no role. -/
def load_vector_database (d : DiskState V) : Option (FaissIndex V × List Chunk) :=
  match d.faissFile, d.chunksFile with
  | some fi, some ci =>
    match fi, ci with
    | some idx, some chs => some (idx, chs)
    | _, _ => none
  | _, _ => none

/-- `get_indexed_programs` (`database.py` lines 44-54): the program list from
the metadata document, `[]` when the file is missing or unparsable. -/
def get_indexed_programs (d : DiskState V) : List String :=
  match d.metadataFile with
  | some (some md) => md.programs
  | _ => []

/-- The environment of opaque collaborators a build runs against. -/
structure Env (V : Type) where
  /-- current on-disk state -/
  disk : DiskState V
  /-- `process_program` with the man-page cache: program ↦ man page text -/
  resolve : String → Option String
  /-- `model.encode(batch)`; `.error` models a raised exception -/
  encode : List String → Except Unit (List V)
  /-- `faiss.normalize_L2`, row-wise (opaque float arithmetic) -/
  normalize : V → V
  /-- the row dimension (`len(v)`), used for `embeddings.shape[1]` -/
  dim : V → Nat
  /-- `os.popen('date')` at save time -/
  now : String

/-- `save_vector_database(chunks, embeddings, programs)` (`database.py`
lines 57-87): normalise the embeddings, build a fresh flat index holding
exactly those rows, and write metadata whose program list is
`sorted(programs)` (no deduplication).  When `embeddings` has no rows its
numpy shape is `(0, 384)` on the only path constructing an empty matrix
(line 294), so `dimension` defaults to 384. -/
def saveVectorDatabase (env : Env V) (chunks : List Chunk) (embs : List V)
    (programs : List String) : Store V :=
  { vectors := embs.map env.normalize
    chunks := chunks
    metadata :=
      { num_chunks := chunks.length
        num_programs := programs.length
        dimension := match embs with | [] => 384 | v :: _ => env.dim v
        indexed_at := env.now
        programs := pySorted programs } }

/-- Writing a snapshot replaces all three artifacts with parsable contents;
a freshly written flat index reconstructs its vectors successfully. -/
def writeStore (st : Store V) : DiskState V :=
  { faissFile := some (some { vectors := st.vectors, reconstructOk := true })
    chunksFile := some (some st.chunks)
    metadataFile := some (some st.metadata) }

/-- The outcome of one `build_vector_database` run: the snapshot it saved (at
most one save per run), the number of encoder calls it made, and whether an
exception propagated out of it (a failing encoder call, or the IndexError of
the removal filter on a store with more kept entries than vector rows). -/
structure BuildResult (V : Type) where
  saved : Option (Store V)
  encodeCalls : Nat
  raised : Bool
deriving DecidableEq, Inhabited

/-- Disk state after a run: unchanged unless the run saved a snapshot. -/
def diskAfter (env : Env V) (r : BuildResult V) : DiskState V :=
  match r.saved with
  | some st => writeStore st
  | none => env.disk

/-- Extracting the stored vectors from a loaded index (`database.py` lines
128-136): `IndexFlatL2` stores vectors directly, so a successful
reconstruction returns exactly the stored rows; on an exception the build
falls back to `existing_embeddings = None`. -/
def reconstructVectors (idx : FaissIndex V) : Option (List V) :=
  if idx.reconstructOk then some idx.vectors else none

/-- The batched encoding loop (`database.py` lines 280-288), fuel-indexed for
structural recursion; `fuel ≥ texts.length` and `b = 32 > 0` on the only call
site.  Returns the concatenated rows (or the first raised error) together
with the number of `encode` calls made. -/
def encodeBatchedAux (enc : List String → Except Unit (List V)) (b : Nat) :
    Nat → List String → Except Unit (List V) × Nat
  | _, [] => (Except.ok [], 0)
  | 0, _ :: _ => (Except.ok [], 0)
  | fuel + 1, t :: ts =>
    match enc ((t :: ts).take b) with
    | Except.error e => (Except.error e, 1)
    | Except.ok ws =>
      let r := encodeBatchedAux enc b fuel ((t :: ts).drop b)
      (r.1.map (fun vs => ws ++ vs), r.2 + 1)

/-- The batched encoding loop with enough fuel for its input. -/
def encodeBatched (env : Env V) (b : Nat) (texts : List String) :
    Except Unit (List V) × Nat :=
  encodeBatchedAux env.encode b texts.length texts

/-- The embedding stage (`database.py` lines 279-290): with a progress
callback, fixed-size batches of 32; without one, a single `encode` call. -/
def embedStage (env : Env V) (cb : Bool) (texts : List String) :
    Except Unit (List V) × Nat :=
  if cb then encodeBatched env 32 texts else (env.encode texts, 1)

/-- `MAX_TEXT_LENGTH` from `src/mana/config/__init__.py`. -/
def MAX_TEXT_LENGTH : Nat := 8000

/-- The resolved `(program, man_page)` pairs of the scanning stage
(`database.py` lines 207-233): programs whose document cannot be resolved are
dropped silently.  Completion order of the worker pool is unspecified; the
model uses submission order (entry order carries no semantic meaning, see
spec §4.3). -/
def resolvePairs (env : Env V) (programs : List String) : List (String × String) :=
  programs.filterMap (fun p => (env.resolve p).map (fun t => (p, t)))

/-- `build_vector_database` from line 193 on: scanning, chunk creation,
embedding of the new chunks only, merge with the retained existing data, and
the final save.  `cb` says whether a progress callback was supplied (it only
selects the batched encoding path; console output is not modelled). -/
def buildPhase2 [Inhabited V] (env : Env V) (cb : Bool) (existingChunks : List Chunk)
    (existingEmbs : Option (List V)) (existingPrograms programs : List String) :
    BuildResult V :=
  -- line 193: `if not programs: return`
  if programs = [] then { saved := none, encodeCalls := 0, raised := false }
  else
    let newPairs := resolvePairs env programs
    let newPrograms := newPairs.map (fun pt => pt.1)
    -- line 235: `if not new_man_pages and not existing_chunks: return`
    if newPairs = [] ∧ existingChunks = [] then
      { saved := none, encodeCalls := 0, raised := false }
    else
      let newChunks := newPairs.map (fun pt => mkChunk pt.1 pt.2)
      -- lines 271-294: embed only the NEW chunks (texts truncated to
      -- MAX_TEXT_LENGTH); without new chunks, a 0-row matrix
      let encRes :=
        if newChunks = [] then (Except.ok ([] : List V), 0)
        else embedStage env cb (newChunks.map (fun c => pyTake c.text MAX_TEXT_LENGTH))
      match encRes.1 with
      | Except.error _ =>
        -- an encoding exception propagates: nothing after it runs
        { saved := none, encodeCalls := encRes.2, raised := true }
      | Except.ok newEmbs =>
        -- lines 296-307: merge chunks, programs and embeddings
        let allChunks := existingChunks ++ newChunks
        let allPrograms := pySortedSet (existingPrograms ++ newPrograms)
        let allEmbs :=
          match existingEmbs with
          | some e =>
            if !e.isEmpty then (if !newEmbs.isEmpty then e ++ newEmbs else e) else newEmbs
          | none => newEmbs
        { saved := some (saveVectorDatabase env allChunks allEmbs allPrograms)
          encodeCalls := encRes.2
          raised := false }

/-- `build_vector_database(programs, max_workers, force, progress_callback)`
(`database.py` lines 92-323) with the program list given explicitly (the
`programs is None` discovery path only fills in the same list).  The
incremental part (lines 115-191) runs when `force` is false and the metadata
lists known programs; both the verbose and the callback variant return
exactly when there is nothing new and nothing removed, so a single condition
models lines 144-158. -/
def buildVectorDatabase [Inhabited V] (env : Env V) (programs : List String)
    (force cb : Bool) : BuildResult V :=
  let existingPrograms := if force then [] else get_indexed_programs env.disk
  if existingPrograms = [] then buildPhase2 env cb [] none [] programs
  else
    let db := load_vector_database env.disk
    let existingChunks := match db with | some (_, chs) => chs | none => []
    let existingEmbs := match db with
      | some (idx, _) => reconstructVectors idx
      | none => none
    -- lines 139-142: the diff
    let newPrograms := pySortedSet (programs.filter (fun p => p ∉ existingPrograms))
    let removedPrograms := pySortedSet (existingPrograms.filter (fun p => p ∉ programs))
    -- lines 144-158: up-to-date early return
    if newPrograms = [] ∧ removedPrograms = [] then
      { saved := none, encodeCalls := 0, raised := false }
    else
      if removedPrograms ≠ [] then
        -- lines 164-180: filter out chunks of removed programs, and their
        -- embeddings positionally.  Python indexes `existing_embeddings[i]`
        -- for every kept chunk; a kept index beyond the reconstructed rows
        -- raises IndexError, which propagates out of the run: nothing after
        -- it executes and nothing is persisted.
        let kept := existingChunks.enum.filter
          (fun ic => ic.2.program ∉ removedPrograms)
        let outOfRange :=
          match existingEmbs with
          | some es => !kept.all (fun ic => ic.1 < es.length)
          | none => false
        if outOfRange then { saved := none, encodeCalls := 0, raised := true }
        else
          let filteredChunks := kept.map (fun ic => ic.2)
          let filteredEmbs :=
            match existingEmbs with
            | some es =>
              let fe := kept.map (fun ic => es.getD ic.1 default)
              if fe.isEmpty then none else some fe
            | none => none
          let filteredPrograms := existingPrograms.filter (fun p => p ∉ removedPrograms)
          -- lines 183-191: removal-only immediate save
          if newPrograms = [] then
            match filteredEmbs with
            | some fe =>
              { saved := some (saveVectorDatabase env filteredChunks fe filteredPrograms)
                encodeCalls := 0
                raised := false }
            | none => buildPhase2 env cb filteredChunks none filteredPrograms newPrograms
          else buildPhase2 env cb filteredChunks filteredEmbs filteredPrograms newPrograms
      else buildPhase2 env cb existingChunks existingEmbs existingPrograms newPrograms

/-! ### `search_vector_database` (`database.py` lines 326-366)

The query embedding is the encoder's output for the query, L2-normalised;
both steps are opaque collaborators, so search is modelled as a function of
the resulting query vector.  Exact rational arithmetic stands in for the
float arithmetic of FAISS. -/

/-- Vector type for the search model. -/
abbrev Vec := List ℚ

/-- Squared L2 distance between two vectors of equal dimension. -/
def sqDist (u v : Vec) : ℚ :=
  ((u.zip v).map (fun p => (p.1 - p.2) ^ 2)).sum

/-- `index.search(query, k)` on a flat L2 index: the `k` nearest stored rows,
as `(row index, squared distance)` pairs in ascending distance order.  FAISS
leaves the order of exact ties unspecified; the model fixes one stable order,
and no theorem below depends on the tie order. -/
def faissSearch (index : List Vec) (q : Vec) (k : Nat) : List (Nat × ℚ) :=
  (List.insertionSort (fun a b => a.2 ≤ b.2)
    ((List.range index.length).map (fun i => (i, sqDist q (index.getD i default))))).take k

/-- The result loop of `search_vector_database` (lines 357-366): for each hit
within range, a copy of the stored chunk with the similarity `1 - d/2`
attached.  (With `k ≤ len(index)`, FAISS returns no `-1` padding indices, so
every hit index is a real row.) -/
def search_vector_database (q : Vec) (index : List Vec) (chunks : List Chunk)
    (topK : Nat) : List Chunk :=
  let actualTopK := min topK chunks.length
  (faissSearch index q actualTopK).filterMap (fun hit =>
    if hit.1 < chunks.length then
      some { chunks.getD hit.1 default with similarity := some (1 - hit.2 / 2) }
    else none)

/-- The same result loop with the allocation of the copies made explicit, to
state what search mutates.  The heap is the list of live chunk objects; the
first `n` cells are the store's loaded entry list.  `chunks[idx].copy()`
allocates a fresh object at the end of the heap and the `'similarity'` update
is applied to that fresh object, never to a store cell. -/
def searchAllocLoop (n : Nat) : List (Nat × ℚ) → List Chunk → List Nat →
    List Chunk × List Nat
  | [], heap, results => (heap, results)
  | hit :: rest, heap, results =>
    if hit.1 < n then
      let obj := heap.getD hit.1 default
      let addr := heap.length
      searchAllocLoop n rest
        (heap ++ [{ obj with similarity := some (1 - hit.2 / 2) }])
        (results ++ [addr])
    else searchAllocLoop n rest heap results

/-- Heap-explicit version of the search result loop: returns the final heap
and the addresses of the result objects. -/
def searchAlloc (q : Vec) (index : List Vec) (chunks : List Chunk)
    (topK : Nat) : List Chunk × List Nat :=
  searchAllocLoop chunks.length (faissSearch index q (min topK chunks.length)) chunks []

/-! ### Real-valued vectors: `faiss.normalize_L2` -/

/-- Squared L2 norm of a real vector. -/
def sqNorm (v : List ℝ) : ℝ := (v.map (fun x => x ^ 2)).sum

/-- `faiss.normalize_L2` on one row, in exact real arithmetic: divide every
component by the L2 norm. -/
noncomputable def realNormalize (v : List ℝ) : List ℝ :=
  v.map (fun x => x / Real.sqrt (sqNorm v))

/-! ### Helper lemmas -/

theorem sqNorm_nonneg (v : List ℝ) : 0 ≤ sqNorm v := by
  refine List.sum_nonneg ?_
  intro x hx
  simp only [List.mem_map] at hx
  obtain ⟨y, -, rfl⟩ := hx
  positivity

theorem sqNorm_map_mul (v : List ℝ) (c : ℝ) :
    sqNorm (v.map (fun x => x * c)) = sqNorm v * c ^ 2 := by
  induction v with
  | nil => simp [sqNorm]
  | cons x xs ih =>
    simp only [List.map_cons, sqNorm, List.sum_cons] at ih ⊢
    rw [ih]
    ring

/-- Renormalising a row with nonzero norm yields a unit vector. -/
theorem sqNorm_realNormalize (v : List ℝ) (h : sqNorm v ≠ 0) :
    sqNorm (realNormalize v) = 1 := by
  have hnn := sqNorm_nonneg v
  have hs : Real.sqrt (sqNorm v) ^ 2 = sqNorm v := Real.sq_sqrt hnn
  have hne : Real.sqrt (sqNorm v) ≠ 0 := by
    intro h0
    apply h
    rw [← hs, h0]
    ring
  have : realNormalize v = v.map (fun x => x * (Real.sqrt (sqNorm v))⁻¹) := by
    simp [realNormalize, div_eq_mul_inv]
  rw [this, sqNorm_map_mul, inv_pow, hs, mul_inv_cancel₀ h]

theorem pySorted_sorted (l : List String) :
    List.Sorted (fun a b => a ≤ b) (pySorted l) :=
  List.sorted_insertionSort _ l

theorem pySorted_perm (l : List String) : List.Perm (pySorted l) l :=
  List.perm_insertionSort _ l

theorem pySortedSet_sorted (l : List String) :
    List.Sorted (fun a b => a ≤ b) (pySortedSet l) :=
  List.sorted_insertionSort _ _

theorem pySortedSet_nodup (l : List String) : (pySortedSet l).Nodup :=
  ((List.perm_insertionSort _ _).nodup_iff).mpr l.nodup_dedup

theorem pySortedSet_perm_dedup (l : List String) : List.Perm (pySortedSet l) l.dedup :=
  List.perm_insertionSort _ _

theorem mem_pySortedSet {l : List String} {p : String} :
    p ∈ pySortedSet l ↔ p ∈ l := by
  rw [(pySortedSet_perm_dedup l).mem_iff, List.mem_dedup]

/-- Two sorted, duplicate-free string lists with the same elements are equal. -/
theorem sorted_nodup_toFinset_eq {l₁ l₂ : List String}
    (hs₁ : List.Sorted (fun a b => a ≤ b) l₁) (hs₂ : List.Sorted (fun a b => a ≤ b) l₂)
    (hn₁ : l₁.Nodup) (hn₂ : l₂.Nodup) (h : l₁.toFinset = l₂.toFinset) : l₁ = l₂ := by
  have hperm : List.Perm l₁ l₂ := by
    have := List.toFinset_eq_iff_perm_dedup.mp h
    rwa [List.dedup_eq_self.mpr hn₁, List.dedup_eq_self.mpr hn₂] at this
  exact List.eq_of_perm_of_sorted hperm hs₁ hs₂

/-- Sorting an already-sorted string list is the identity. -/
theorem pySorted_eq_self {l : List String} (h : List.Sorted (fun a b => a ≤ b) l) :
    pySorted l = l :=
  List.Sorted.insertionSort_eq h

/-- `pySortedSet` is the identity on sorted duplicate-free lists. -/
theorem pySortedSet_eq_self {l : List String}
    (hs : List.Sorted (fun a b => a ≤ b) l) (hn : l.Nodup) : pySortedSet l = l := by
  unfold pySortedSet
  rw [List.dedup_eq_self.mpr hn]
  exact List.Sorted.insertionSort_eq hs

/-! ### C3 : what `load_vector_database` requires -/

/-- C3 counterexample: with the vector-index blob and the entry-records blob
present and parsable but the metadata document missing, `load_vector_database`
still returns a pair — contradicting the claim that it returns a pair only
when all three artifacts exist and parse. -/
theorem c3_counterexample :
    (load_vector_database (V := Vec)
      { faissFile := some (some { vectors := [[1]], reconstructOk := true })
        chunksFile := some (some [])
        metadataFile := none }).isSome = true ∧
    (DiskState.metadataFile (V := Vec)
      { faissFile := some (some { vectors := [[1]], reconstructOk := true })
        chunksFile := some (some [])
        metadataFile := none }) = none := by
  constructor <;> rfl

/-- C3 (amended): `load_vector_database` returns a pair exactly when the
vector-index blob and the entry-records blob both exist and parse; the
metadata document is never consulted by load.  Missing files and parse
exceptions are mapped to `none` rather than raised (the `Option` layers of
`DiskState` model the caught exceptions). -/
theorem c3_load_iff (d : DiskState V) :
    (load_vector_database d).isSome = true ↔
      ((∃ i, d.faissFile = some (some i)) ∧ (∃ c, d.chunksFile = some (some c))) := by
  obtain ⟨f, c, m⟩ := d
  dsimp only [load_vector_database]
  cases f with
  | none => simp
  | some fi =>
    cases c with
    | none => cases fi <;> simp
    | some ci => cases fi <;> cases ci <;> simp

/-! ### C9 : the fallback of `extract_name_section` -/

/-- C9 counterexample: for a document whose only line has leading whitespace
and a stripped length above 20, neither parse produces a description, and the
extractor returns the *stripped* form of the qualifying line, not the line
verbatim as claimed. -/
theorem c9_counterexample :
    extract_name_section "p" "   aaaaaaaaaaaaaaaaaaaaaaaa" =
      "aaaaaaaaaaaaaaaaaaaaaaaa" ∧
    "aaaaaaaaaaaaaaaaaaaaaaaa" ≠ "   aaaaaaaaaaaaaaaaaaaaaaaa" := by
  constructor
  · rfl
  · decide

/-- C9 (amended): whenever neither the structured (troff) parse nor the plain
parse produces a non-empty description, the extractor returns the stripped
form of the first line among the document's first 20 lines whose stripped
length exceeds 20 characters and which is not all-uppercase; if no such line
exists it returns exactly `"<identifier> - command-line utility"`.  In either
case the summary is nonempty. -/
theorem c9_fallback_amended (program text : String)
    (hT : troffDescription (pyLines text) = "")
    (hP : plainDescription (pyLines text) = "") :
    (match ((pyLines text).take 20).find? substantialLine with
     | some l => extract_name_section program text = pyStrip l
     | none => extract_name_section program text =
         program ++ " - command-line utility") ∧
    extract_name_section program text ≠ "" := by
  have hext : extract_name_section program text =
      (if firstSubstantial ((pyLines text).take 20) ≠ "" then
        firstSubstantial ((pyLines text).take 20)
      else program ++ " - command-line utility") := by
    simp only [extract_name_section]
    rw [hT, hP, ite_self, if_pos rfl]
  cases hfind : ((pyLines text).take 20).find? substantialLine with
  | some l =>
    have hq : substantialLine l = true := List.find?_some hfind
    have hne : pyStrip l ≠ "" := by
      have := hq
      unfold substantialLine at this
      simp only [Bool.and_eq_true, decide_eq_true_eq] at this
      exact this.1.1
    have hfs : firstSubstantial ((pyLines text).take 20) = pyStrip l := by
      unfold firstSubstantial
      rw [hfind]
    rw [hext, hfs, if_pos hne]
    exact ⟨rfl, hne⟩
  | none =>
    have hfs : firstSubstantial ((pyLines text).take 20) = "" := by
      unfold firstSubstantial
      rw [hfind]
    have hne : program ++ " - command-line utility" ≠ "" := by
      intro h0
      have : (program ++ " - command-line utility").data = "".data := by rw [h0]
      rw [String.data_append] at this
      simp at this
    rw [hext, hfs, if_neg (by simp)]
    exact ⟨rfl, hne⟩

/-- C9 witness: the empty document has no structured or plain description,
and the extractor synthesizes the final-fallback summary, which is
nonempty. -/
theorem c9_witness :
    troffDescription (pyLines "") = "" ∧ plainDescription (pyLines "") = "" ∧
    extract_name_section "p" "" ≠ "" :=
  ⟨by decide, by decide, (c9_fallback_amended "p" "" (by decide) (by decide)).2⟩

/-! ### C2 / C1 : the degraded-store build path -/

/-- The on-disk state of a store that loads but whose vectors cannot be
reconstructed from the neighbor structure. -/
def degradedDisk : DiskState Vec :=
  { faissFile := some (some { vectors := [[1]], reconstructOk := false })
    chunksFile := some (some [mkChunk "a" "ay"])
    metadataFile := some (some
      { num_chunks := 1, num_programs := 1, dimension := 1,
        indexed_at := "t0", programs := ["a"] }) }

/-- The environment of the degraded-store run: program `b` is newly live and
resolvable; the encoder succeeds. -/
def degradedEnv : Env Vec :=
  { disk := degradedDisk
    resolve := fun p => if p = "b" then some "x" else none
    encode := fun ts => Except.ok (ts.map (fun _ => [1]))
    normalize := id
    dim := List.length
    now := "t1" }

/-- C2: at the failing input (a loaded-but-degraded store holding one entry
for `a`, live set `{a, b}` with `b` resolvable), the incremental build does
NOT re-embed the retained entry: the encoder runs once, on the new text only,
and the run persists a snapshot pairing 2 entries with a single vector — the
retained entry is left without a vector, contradicting the claimed
fallback. -/
theorem c2_failing_run :
    ((buildVectorDatabase degradedEnv ["a", "b"] false false).saved.map
      (fun st => (st.chunks.length, st.vectors.length))) = some (2, 1) ∧
    (buildVectorDatabase degradedEnv ["a", "b"] false false).encodeCalls = 1 := by
  constructor <;> rfl

/-- C1 counterexample: a completed save reached at the end of a build path
(the degraded-store incremental path) persists a snapshot in which the number
of entry records differs from the number of vectors in the neighbor
structure — the claimed invariant does not hold for every save the build
reaches. -/
theorem c1_counterexample :
    ((buildVectorDatabase (V := Vec)
        { disk :=
            { faissFile := some (some { vectors := [[1], [2]], reconstructOk := false })
              chunksFile := some (some [mkChunk "a" "ay", mkChunk "c" "cy"])
              metadataFile := some (some
                { num_chunks := 2, num_programs := 2, dimension := 1,
                  indexed_at := "t0", programs := ["a", "c"] }) }
          resolve := fun p => if p = "b" then some "x" else none
          encode := fun ts => Except.ok (ts.map (fun _ => ([1] : Vec)))
          normalize := id
          dim := List.length
          now := "t1" } ["a", "b", "c"] false false).saved.map
      (fun st => (st.chunks.length, st.vectors.length))) = some (3, 1) ∧
    (3 : Nat) ≠ 1 := by
  exact ⟨rfl, by decide⟩

/-- C1 (amended): when `save_vector_database` is reached with as many
embedding rows as entry records, nonzero rows, and a duplicate-free program
list carrying exactly the entries' identifiers — which is what every build
path with a consistent, reconstructible existing store supplies — the
persisted snapshot satisfies the claimed invariants: equal counts of entries
and vectors, metadata identifiers equal to the sorted duplicate-free list of
the entries' identifiers, and every stored vector of unit L2 norm. -/
theorem c1_save_invariants_amended (env : Env (List ℝ))
    (hnorm : env.normalize = realNormalize)
    (chunks : List Chunk) (embs : List (List ℝ)) (programs : List String)
    (hlen : embs.length = chunks.length)
    (hnz : ∀ v ∈ embs, sqNorm v ≠ 0)
    (hset : programs.toFinset = (chunks.map (fun c => c.program)).toFinset)
    (hnd : programs.Nodup) :
    (saveVectorDatabase env chunks embs programs).chunks.length =
      (saveVectorDatabase env chunks embs programs).vectors.length ∧
    (saveVectorDatabase env chunks embs programs).metadata.programs =
      pySortedSet (chunks.map (fun c => c.program)) ∧
    ∀ v ∈ (saveVectorDatabase env chunks embs programs).vectors, sqNorm v = 1 := by
  refine ⟨?_, ?_, ?_⟩
  · simp [saveVectorDatabase, hlen]
  · have hsorted₁ : List.Sorted (fun a b => a ≤ b) (pySorted programs) :=
      pySorted_sorted programs
    have hnd₁ : (pySorted programs).Nodup := (pySorted_perm programs).nodup_iff.mpr hnd
    have hfin : (pySorted programs).toFinset =
        (pySortedSet (chunks.map (fun c => c.program))).toFinset := by
      rw [List.toFinset_eq_iff_perm_dedup]
      refine ((pySorted_perm programs).dedup).trans ?_
      refine List.Perm.trans ?_ ((pySortedSet_perm_dedup _).dedup).symm
      rw [List.dedup_eq_self.mpr hnd, List.dedup_idem]
      rw [List.toFinset_eq_iff_perm_dedup, List.dedup_eq_self.mpr hnd] at hset
      exact hset
    show pySorted programs = _
    exact sorted_nodup_toFinset_eq hsorted₁ (pySortedSet_sorted _) hnd₁
      (pySortedSet_nodup _) hfin
  · intro v hv
    simp only [saveVectorDatabase, List.mem_map, hnorm] at hv
    obtain ⟨u, hu, rfl⟩ := hv
    exact sqNorm_realNormalize u (hnz u hu)

/-- C1 witness: the amended invariant theorem applied at a one-entry store
with the nonzero embedding row `[3, 4]`. -/
theorem c1_witness :
    ([[(3 : ℝ), 4]].length = [mkChunk "a" "ay"].length) ∧
    ((["a"] : List String).toFinset =
      ([mkChunk "a" "ay"].map (fun c => c.program)).toFinset) ∧
    (saveVectorDatabase
        { disk := { faissFile := none, chunksFile := none, metadataFile := none }
          resolve := fun _ => none
          encode := fun _ => Except.ok []
          normalize := realNormalize
          dim := List.length
          now := "t" } [mkChunk "a" "ay"] [[(3 : ℝ), 4]] ["a"]).chunks.length =
      (saveVectorDatabase
        { disk := { faissFile := none, chunksFile := none, metadataFile := none }
          resolve := fun _ => none
          encode := fun _ => Except.ok []
          normalize := realNormalize
          dim := List.length
          now := "t" } [mkChunk "a" "ay"] [[(3 : ℝ), 4]] ["a"]).vectors.length := by
  refine ⟨by simp, by simp [mkChunk], ?_⟩
  exact (c1_save_invariants_amended _ rfl [mkChunk "a" "ay"] [[(3 : ℝ), 4]] ["a"]
    (by simp) (by intro v hv; simp at hv; subst hv; norm_num [sqNorm])
    (by simp [mkChunk]) (by simp)).1


/-! ### C4 : search result count, order and similarity formula -/

/-- Every hit returned by the flat-index search is a real row paired with its
squared distance to the query. -/
theorem faissSearch_mem {index : List Vec} {q : Vec} {k : Nat} {hit : Nat × ℚ}
    (h : hit ∈ faissSearch index q k) :
    hit.1 < index.length ∧ hit.2 = sqDist q (index.getD hit.1 default) := by
  have h1 := List.mem_of_mem_take h
  rw [List.mem_insertionSort] at h1
  simp only [List.mem_map, List.mem_range] at h1
  obtain ⟨i, hi, rfl⟩ := h1
  exact ⟨hi, rfl⟩

/-- The flat-index hits are in ascending distance order. -/
theorem faissSearch_pairwise (index : List Vec) (q : Vec) (k : Nat) :
    (faissSearch index q k).Pairwise (fun a b => a.2 ≤ b.2) := by
  haveI : IsTotal (Nat × ℚ) (fun a b => a.2 ≤ b.2) := ⟨fun a b => le_total a.2 b.2⟩
  haveI : IsTrans (Nat × ℚ) (fun a b => a.2 ≤ b.2) := ⟨fun _ _ _ => le_trans⟩
  exact List.Pairwise.sublist (List.take_sublist _ _) (List.sorted_insertionSort _ _)

/-- The flat-index search returns `min k n` hits. -/
theorem faissSearch_length (index : List Vec) (q : Vec) (k : Nat) :
    (faissSearch index q k).length = min k index.length := by
  unfold faissSearch
  rw [List.length_take, (List.perm_insertionSort _ _).length_eq,
    List.length_map, List.length_range]

/-- A `filterMap` whose guard holds on every element is a `map`. -/
theorem filterMap_ite_eq_map {α β : Type _} (p : α → Prop) [DecidablePred p]
    (g : α → β) (l : List α) (h : ∀ x ∈ l, p x) :
    (l.filterMap (fun x => if p x then some (g x) else none)) = l.map g := by
  induction l with
  | nil => rfl
  | cons x xs ih =>
    rw [List.filterMap_cons, List.map_cons, if_pos (h x (List.mem_cons_self x xs))]
    rw [ih (fun y hy => h y (List.mem_cons_of_mem x hy))]

/-- On an aligned store, the search result list is a `map` over the hits. -/
theorem search_eq_map (q : Vec) (index : List Vec) (chunks : List Chunk)
    (topK : Nat) (h : index.length = chunks.length) :
    search_vector_database q index chunks topK =
      (faissSearch index q (min topK chunks.length)).map (fun hit =>
        { chunks.getD hit.1 default with similarity := some (1 - hit.2 / 2) }) := by
  unfold search_vector_database
  exact filterMap_ite_eq_map _ _ _
    (fun hit hm => h ▸ (faissSearch_mem hm).1)

/-- C4: on a loadable store whose `n` entry records align with its `n` index
rows, search with any query vector and any `top_k` returns exactly
`min(top_k, n)` results, ordered by descending similarity, and each result is
a copy of a stored entry carrying similarity `1 − d/2` for `d` the squared L2
distance between the query vector and that entry's stored vector. -/
theorem c4_search_results (q : Vec) (index : List Vec) (chunks : List Chunk)
    (topK : Nat) (h : index.length = chunks.length) :
    (search_vector_database q index chunks topK).length = min topK chunks.length ∧
    (search_vector_database q index chunks topK).Pairwise
      (fun a b => b.similarity.getD 0 ≤ a.similarity.getD 0) ∧
    ∀ r ∈ search_vector_database q index chunks topK,
      ∃ i, i < chunks.length ∧
        r = { chunks.getD i default with
              similarity := some (1 - sqDist q (index.getD i default) / 2) } := by
  rw [search_eq_map q index chunks topK h]
  refine ⟨?_, ?_, ?_⟩
  · rw [List.length_map, faissSearch_length, h]
    omega
  · rw [List.pairwise_map]
    refine (faissSearch_pairwise index q _).imp ?_
    intro a b hab
    simp only [Option.getD_some]
    linarith
  · intro r hr
    simp only [List.mem_map] at hr
    obtain ⟨hit, hmem, rfl⟩ := hr
    obtain ⟨hlt, hdist⟩ := faissSearch_mem hmem
    exact ⟨hit.1, h ▸ hlt, by rw [hdist]⟩

/-- A five-entry store for the C4 witness. -/
def c4Index : List Vec := [[1, 0], [0, 1], [-1, 0], [4/5, 3/5], [3/5, 4/5]]

/-- Entry records of the C4 witness store. -/
def c4Chunks : List Chunk :=
  [mkChunk "p0" "t", mkChunk "p1" "t", mkChunk "p2" "t",
   mkChunk "p3" "t", mkChunk "p4" "t"]

/-- C4 witness: the store with 5 entries queried with `top_k = 200` yields
exactly 5 results. -/
theorem c4_witness :
    c4Index.length = c4Chunks.length ∧
    (search_vector_database [1, 0] c4Index c4Chunks 200).length = 5 :=
  ⟨by decide, by
    have := (c4_search_results [1, 0] c4Index c4Chunks 200 (by decide)).1
    simpa [c4Chunks] using this⟩

/-! ### C10 : search returns copies; the loaded entry list is not mutated -/

/-- Frame property of the result loop: the first `n` heap cells (the store's
loaded entry list) are untouched, and every result address points at a
freshly allocated copy beyond them. -/
theorem searchAllocLoop_frame (n : Nat) (hits : List (Nat × ℚ))
    (heap : List Chunk) (results : List Nat)
    (hn : n ≤ heap.length) (hres : ∀ a ∈ results, n ≤ a) :
    (∀ i, i < n → (searchAllocLoop n hits heap results).1.get? i = heap.get? i) ∧
    (∀ a ∈ (searchAllocLoop n hits heap results).2, n ≤ a) := by
  induction hits generalizing heap results with
  | nil => exact ⟨fun i _ => rfl, hres⟩
  | cons hit rest ih =>
    by_cases hlt : hit.1 < n
    · have hstep :
        searchAllocLoop n (hit :: rest) heap results =
          searchAllocLoop n rest
            (heap ++ [{ heap.getD hit.1 default with
                        similarity := some (1 - hit.2 / 2) }])
            (results ++ [heap.length]) := by
        simp only [searchAllocLoop]
        rw [if_pos hlt]
      have hn' : n ≤ (heap ++ [{ heap.getD hit.1 default with
          similarity := some (1 - hit.2 / 2) }]).length := by
        rw [List.length_append]
        omega
      have hres' : ∀ a ∈ results ++ [heap.length], n ≤ a := by
        intro a ha
        rw [List.mem_append] at ha
        rcases ha with ha | ha
        · exact hres a ha
        · simp only [List.mem_singleton] at ha
          omega
      obtain ⟨ihframe, ihres⟩ := ih _ _ hn' hres'
      refine ⟨?_, ?_⟩
      · intro i hi
        rw [hstep, ihframe i hi]
        exact List.get?_append (by omega)
      · intro a ha
        rw [hstep] at ha
        exact ihres a ha
    · have hstep : searchAllocLoop n (hit :: rest) heap results =
          searchAllocLoop n rest heap results := by
        simp only [searchAllocLoop]
        rw [if_neg hlt]
      obtain ⟨ihframe, ihres⟩ := ih heap results hn hres
      exact ⟨fun i hi => hstep ▸ ihframe i hi, fun a ha => ihres a (hstep ▸ ha)⟩

/-- C10: search builds its results from copies of the stored entry records —
the similarity field is attached to the copies only, so every field of every
entry of the loaded entry list is unchanged by a search, and every result
object is a fresh allocation, not one of the store's entries. -/
theorem c10_search_frame (q : Vec) (index : List Vec) (chunks : List Chunk)
    (topK : Nat) :
    (∀ i, i < chunks.length →
      (searchAlloc q index chunks topK).1.get? i = chunks.get? i) ∧
    (∀ a ∈ (searchAlloc q index chunks topK).2, chunks.length ≤ a) :=
  searchAllocLoop_frame chunks.length _ chunks [] le_rfl (by intro a ha; cases ha)

/-- C10 witness: a concrete search leaves the single loaded entry record in
place. -/
theorem c10_witness :
    (0 : Nat) < [mkChunk "a" "ay"].length ∧
    (searchAlloc [1] [[1]] [mkChunk "a" "ay"] 3).1.get? 0 =
      [mkChunk "a" "ay"].get? 0 :=
  ⟨by decide, (c10_search_frame [1] [[1]] [mkChunk "a" "ay"] 3).1 0 (by decide)⟩


/-! ### C7 : an encoding failure persists nothing -/

/-- If phase 2 of a build raised, it saved nothing. -/
theorem buildPhase2_raised_saved [Inhabited V] (env : Env V) (cb : Bool)
    (ec : List Chunk) (ee : Option (List V)) (ep ps : List String) :
    (buildPhase2 env cb ec ee ep ps).raised = true →
      (buildPhase2 env cb ec ee ep ps).saved = none := by
  simp only [buildPhase2]
  split
  · intro h
    simp at h
  · split
    · intro h
      simp at h
    · split
      · intro _
        rfl
      · intro h
        simp at h

/-- C7: whenever any encoder call of the embedding stage fails, the whole
build aborts: the run saves no snapshot and the on-disk store (all three
artifacts) is exactly what it was before the run. -/
theorem c7_encode_failure_preserves_store [Inhabited V] (env : Env V)
    (programs : List String) (force cb : Bool)
    (h : (buildVectorDatabase env programs force cb).raised = true) :
    (buildVectorDatabase env programs force cb).saved = none ∧
    diskAfter env (buildVectorDatabase env programs force cb) = env.disk := by
  have hs : (buildVectorDatabase env programs force cb).saved = none := by
    revert h
    simp only [buildVectorDatabase]
    generalize (if force = true then ([] : List String) else get_indexed_programs env.disk) = ep
    split
    · exact buildPhase2_raised_saved _ _ _ _ _ _
    · split
      · intro h
        simp at h
      · split
        · split
          · intro _
            rfl
          · split
            · split
              · intro h
                simp at h
              · exact buildPhase2_raised_saved _ _ _ _ _ _
            · exact buildPhase2_raised_saved _ _ _ _ _ _
        · exact buildPhase2_raised_saved _ _ _ _ _ _
  refine ⟨hs, ?_⟩
  unfold diskAfter
  rw [hs]

/-- C7 witness: a concrete run whose only encoder call raises saves nothing
and leaves the disk untouched. -/
theorem c7_witness :
    (buildVectorDatabase (V := Vec)
      { disk := { faissFile := none, chunksFile := none, metadataFile := none }
        resolve := fun _ => some "x"
        encode := fun _ => Except.error ()
        normalize := id
        dim := List.length
        now := "t" } ["a"] false false).raised = true ∧
    (buildVectorDatabase (V := Vec)
      { disk := { faissFile := none, chunksFile := none, metadataFile := none }
        resolve := fun _ => some "x"
        encode := fun _ => Except.error ()
        normalize := id
        dim := List.length
        now := "t" } ["a"] false false).saved = none :=
  ⟨by decide, (c7_encode_failure_preserves_store _ ["a"] false false (by decide)).1⟩

/-! ### C8 : batched and single-call embedding agree -/

/-- For an order-preserving encoder, the batched loop computes exactly the
single-call result (for any positive batch size and nonempty text list). -/
theorem encodeBatchedAux_eq_encode (enc : List String → Except Unit (List V))
    (b : Nat) (hb : 0 < b)
    (hHom : ∀ xs ys : List String,
      enc (xs ++ ys) =
        (enc xs).bind (fun a => (enc ys).map (fun v => a ++ v))) :
    ∀ (fuel : Nat) (ts : List String), ts ≠ [] → ts.length ≤ fuel →
      (encodeBatchedAux enc b fuel ts).1 = enc ts := by
  intro fuel
  induction fuel with
  | zero =>
    intro ts hne hlen
    cases ts with
    | nil => exact absurd rfl hne
    | cons t ts' => simp at hlen
  | succ fuel ih =>
    intro ts hne hlen
    cases ts with
    | nil => exact absurd rfl hne
    | cons t ts' =>
      by_cases hdrop : (t :: ts').drop b = []
      · have htake : (t :: ts').take b = t :: ts' :=
          List.take_of_length_le (List.drop_eq_nil_iff.mp hdrop)
        simp only [encodeBatchedAux, htake]
        cases henc : enc (t :: ts') with
        | error e => rfl
        | ok ws =>
          simp only [hdrop, encodeBatchedAux]
          simp [Except.map]
      · have hsplit := hHom ((t :: ts').take b) ((t :: ts').drop b)
        rw [List.take_append_drop] at hsplit
        simp only [encodeBatchedAux]
        rw [hsplit]
        cases henc : enc ((t :: ts').take b) with
        | error e => rfl
        | ok ws =>
          have hlen' : ((t :: ts').drop b).length ≤ fuel := by
            rw [List.length_drop, List.length_cons]
            simp only [List.length_cons] at hlen
            omega
          rw [ih ((t :: ts').drop b) hdrop hlen']
          cases enc ((t :: ts').drop b) <;> rfl

/-- For an order-preserving encoder, the embedding stage yields the
single-call result (or the same failure) with or without batching, on
nonempty input. -/
theorem embedStage_fst (env : Env V) (texts : List String)
    (hne : texts ≠ [])
    (hHom : ∀ xs ys : List String,
      env.encode (xs ++ ys) =
        (env.encode xs).bind (fun a => (env.encode ys).map (fun v => a ++ v)))
    (cb : Bool) :
    (embedStage env cb texts).1 = env.encode texts := by
  cases cb with
  | false => rfl
  | true =>
    show (encodeBatched env 32 texts).1 = env.encode texts
    exact encodeBatchedAux_eq_encode env.encode 32 (by omega) hHom texts.length texts hne le_rfl

/-- For an order-preserving encoder, phase 2 of the build saves the same
snapshot and raises identically with and without a progress callback. -/
theorem buildPhase2_cb_irrelevant [Inhabited V] (env : Env V) (cb₁ cb₂ : Bool)
    (ec : List Chunk) (ee : Option (List V)) (ep ps : List String)
    (hHom : ∀ xs ys : List String,
      env.encode (xs ++ ys) =
        (env.encode xs).bind (fun a => (env.encode ys).map (fun v => a ++ v))) :
    (buildPhase2 env cb₁ ec ee ep ps).saved = (buildPhase2 env cb₂ ec ee ep ps).saved ∧
    (buildPhase2 env cb₁ ec ee ep ps).raised = (buildPhase2 env cb₂ ec ee ep ps).raised := by
  simp only [buildPhase2]
  split
  · exact ⟨rfl, rfl⟩
  · split
    · exact ⟨rfl, rfl⟩
    · by_cases hnc : (resolvePairs env ps).map (fun pt => mkChunk pt.1 pt.2) = []
      · rw [hnc]
        exact ⟨rfl, rfl⟩
      · have hne : ((resolvePairs env ps).map (fun pt => mkChunk pt.1 pt.2)).map
            (fun c => pyTake c.text MAX_TEXT_LENGTH) ≠ [] := by
          simpa using hnc
        rw [if_neg hnc, if_neg hnc, embedStage_fst env _ hne hHom cb₁,
          embedStage_fst env _ hne hHom cb₂]
        cases env.encode (((resolvePairs env ps).map (fun pt => mkChunk pt.1 pt.2)).map
              (fun c => pyTake c.text MAX_TEXT_LENGTH)) with
        | error e => exact ⟨rfl, rfl⟩
        | ok ws => exact ⟨rfl, rfl⟩

/-- C8: for every order-preserving encoder (batched encoding of a
concatenation = concatenation of the encodings), the build saves exactly the
same snapshot — vector matrix, entries and metadata — whether it embeds in
fixed-size batches of 32 (progress callback supplied) or in one single
encoder call (no callback); it also fails identically.  Batch size affects
only progress reporting. -/
theorem c8_batching_irrelevant [Inhabited V] (env : Env V)
    (programs : List String) (force : Bool)
    (hHom : ∀ xs ys : List String,
      env.encode (xs ++ ys) =
        (env.encode xs).bind (fun a => (env.encode ys).map (fun v => a ++ v))) :
    (buildVectorDatabase env programs force true).saved =
      (buildVectorDatabase env programs force false).saved ∧
    (buildVectorDatabase env programs force true).raised =
      (buildVectorDatabase env programs force false).raised := by
  simp only [buildVectorDatabase]
  generalize (if force = true then ([] : List String) else get_indexed_programs env.disk) = ep
  split
  · exact buildPhase2_cb_irrelevant env true false _ _ _ _ hHom
  · split
    · exact ⟨rfl, rfl⟩
    · split
      · split
        · exact ⟨rfl, rfl⟩
        · split
          · split
            · exact ⟨rfl, rfl⟩
            · exact buildPhase2_cb_irrelevant env true false _ _ _ _ hHom
          · exact buildPhase2_cb_irrelevant env true false _ _ _ _ hHom
      · exact buildPhase2_cb_irrelevant env true false _ _ _ _ hHom

/-- C8 witness: a concrete order-preserving encoder (each text mapped to the
one-component vector of its length) yields the same saved snapshot with and
without batching, on a 40-program live set. -/
theorem c8_witness :
    (buildVectorDatabase (V := Vec)
      { disk := { faissFile := none, chunksFile := none, metadataFile := none }
        resolve := fun p => some p
        encode := fun ts => Except.ok (ts.map (fun s => [(s.length : ℚ)]))
        normalize := id
        dim := List.length
        now := "t" } ["a", "b", "c"] false true).saved =
    (buildVectorDatabase (V := Vec)
      { disk := { faissFile := none, chunksFile := none, metadataFile := none }
        resolve := fun p => some p
        encode := fun ts => Except.ok (ts.map (fun s => [(s.length : ℚ)]))
        normalize := id
        dim := List.length
        now := "t" } ["a", "b", "c"] false false).saved :=
  (c8_batching_irrelevant _ ["a", "b", "c"] false (by
    intro xs ys
    simp only [List.map_append, Except.map]
    rfl)).1


/-! ### C5 : the removal-only (compaction) path -/

/-- `pySortedSet` is empty exactly on the empty list. -/
theorem pySortedSet_eq_nil_iff {l : List String} : pySortedSet l = [] ↔ l = [] := by
  rw [List.eq_nil_iff_forall_not_mem, List.eq_nil_iff_forall_not_mem]
  constructor
  · intro h a ha
    exact h a (mem_pySortedSet.mpr ha)
  · intro h a ha
    exact h a (mem_pySortedSet.mp ha)

/-- Filtering the enumerated list on the element and projecting back is a
plain filter. -/
theorem enumFrom_filter_map_snd {α : Type _} (p : α → Bool) :
    ∀ (l : List α) (n : Nat),
      ((l.enumFrom n).filter (fun ic => p ic.2)).map (fun ic => ic.2) = l.filter p := by
  intro l
  induction l with
  | nil => intro n; rfl
  | cons a as ih =>
    intro n
    rw [List.enumFrom_cons]
    by_cases hp : p a
    · rw [List.filter_cons_of_pos (by simpa using hp), List.filter_cons_of_pos hp,
        List.map_cons, ih (n + 1)]
    · rw [List.filter_cons_of_neg (by simpa using hp), List.filter_cons_of_neg hp,
        ih (n + 1)]

/-- Specialisation of `enumFrom_filter_map_snd` to the removal filter of the
build, stated on `List.enum` so that it rewrites directly. -/
theorem enum_filter_program_map_snd (R : List String) (l : List Chunk) :
    ((l.enum.filter (fun ic => ic.2.program ∉ R)).map (fun ic => ic.2)) =
      l.filter (fun c => c.program ∉ R) :=
  enumFrom_filter_map_snd (fun c => decide (c.program ∉ R)) l 0

/-- Every index kept by the removal filter is a real position of the chunk
list, so on a store with at least as many vector rows as entries the
`IndexError` branch is not taken. -/
theorem enum_filter_all_lt {n : Nat} (l : List Chunk) (p : Nat × Chunk → Bool)
    (h : l.length ≤ n) :
    (l.enum.filter p).all (fun ic => ic.1 < n) = true := by
  rw [List.all_eq_true]
  intro ic hic
  have hm := List.mem_of_mem_filter hic
  have hget := List.mem_enum_iff_getElem?.mp hm
  have hlt : ic.1 < l.length := (List.getElem?_eq_some_iff.mp hget).1
  simpa using lt_of_lt_of_le hlt h

/-- C5 counterexample: against the claim's universal statement, an
incremental build whose live set adds nothing and removes at least one
identifier can persist nothing at all: with known = {a} and live = ∅ every
entry is filtered away, so the immediate-save guard
(`existing_embeddings is not None` after filtering to an empty list) fails
and the run returns without writing; the on-disk identifiers remain {a},
not the live set. -/
theorem c5_counterexample :
    buildVectorDatabase (V := Vec)
      { disk :=
          { faissFile := some (some { vectors := [[1]], reconstructOk := true })
            chunksFile := some (some [mkChunk "a" "ay"])
            metadataFile := some (some
              { num_chunks := 1, num_programs := 1, dimension := 1,
                indexed_at := "t0", programs := ["a"] }) }
        resolve := fun _ => none
        encode := fun ts => Except.ok (ts.map (fun _ => [1]))
        normalize := id
        dim := List.length
        now := "t1" } [] false false =
      { saved := none, encodeCalls := 0, raised := false } := by
  decide

/-- C5 (amended): an incremental build whose live identifier set adds nothing
to the known set and removes at least one identifier — provided the store
loads, its vectors are reconstructible, and at least one entry is retained —
filters out every entry and vector whose identifier is in
removed = known − live, persists the filtered store immediately, makes zero
encoder calls, and the persisted metadata identifiers equal the live set. -/
theorem c5_removal_only_amended [Inhabited V] (env : Env V) (cb : Bool)
    (live known : List String) (idx : FaissIndex V) (chunks : List Chunk)
    (hknown : get_indexed_programs env.disk = known)
    (hkne : known ≠ [])
    (hload : load_vector_database env.disk = some (idx, chunks))
    (hrec : idx.reconstructOk = true)
    (hlen : chunks.length ≤ idx.vectors.length)
    (hsub : ∀ p ∈ live, p ∈ known)
    (hrem : ∃ p ∈ known, p ∉ live)
    (hkept : ∃ c ∈ chunks, c.program ∈ live) :
    (buildVectorDatabase env live false cb).encodeCalls = 0 ∧
    (buildVectorDatabase env live false cb).raised = false ∧
    (buildVectorDatabase env live false cb).saved = some (saveVectorDatabase env
      (chunks.filter (fun c =>
        c.program ∉ pySortedSet (known.filter (fun p => p ∉ live))))
      ((chunks.enum.filter (fun ic =>
          ic.2.program ∉ pySortedSet (known.filter (fun p => p ∉ live)))).map
        (fun ic => idx.vectors.getD ic.1 default))
      (known.filter (fun p => p ∉ pySortedSet (known.filter (fun q => q ∉ live))))) ∧
    ∀ st, (buildVectorDatabase env live false cb).saved = some st →
      st.metadata.programs.toFinset = live.toFinset := by
  have hnew : pySortedSet (live.filter (fun p => decide (p ∉ known))) = [] := by
    rw [pySortedSet_eq_nil_iff, List.filter_eq_nil_iff]
    intro p hp
    simp [hsub p hp]
  have hremfil : known.filter (fun p => decide (p ∉ live)) ≠ [] := by
    rw [Ne, List.filter_eq_nil_iff]
    push_neg
    obtain ⟨p, hpk, hpl⟩ := hrem
    exact ⟨p, hpk, by simpa using hpl⟩
  have hremne : pySortedSet (known.filter (fun p => decide (p ∉ live))) ≠ [] := by
    rw [Ne, pySortedSet_eq_nil_iff]
    exact hremfil
  have hkeptne : (chunks.enum.filter (fun ic =>
      decide (ic.2.program ∉ pySortedSet (known.filter (fun p => decide (p ∉ live)))))) ≠ [] := by
    intro h0
    have hmap := enumFrom_filter_map_snd
      (fun c => decide (c.program ∉ pySortedSet (known.filter (fun p => decide (p ∉ live)))))
      chunks 0
    rw [show chunks.enum = chunks.enumFrom 0 from rfl] at h0
    rw [h0, List.map_nil] at hmap
    obtain ⟨c, hc, hcl⟩ := hkept
    have hcr : (decide (c.program ∉
        pySortedSet (known.filter (fun p => decide (p ∉ live))))) = true := by
      simp only [decide_eq_true_eq, mem_pySortedSet, List.mem_filter]
      rintro ⟨-, hdec⟩
      exact hdec hcl
    have : c ∈ chunks.filter (fun c => decide (c.program ∉
        pySortedSet (known.filter (fun p => decide (p ∉ live))))) :=
      List.mem_filter.mpr ⟨hc, hcr⟩
    rw [← hmap] at this
    exact List.not_mem_nil c this
  have hbuild : buildVectorDatabase env live false cb =
      { saved := some (saveVectorDatabase env
          ((chunks.enum.filter (fun ic =>
              ic.2.program ∉ pySortedSet (known.filter (fun p => p ∉ live)))).map
            (fun ic => ic.2))
          ((chunks.enum.filter (fun ic =>
              ic.2.program ∉ pySortedSet (known.filter (fun p => p ∉ live)))).map
            (fun ic => idx.vectors.getD ic.1 default))
          (known.filter (fun p => p ∉ pySortedSet (known.filter (fun q => q ∉ live)))))
        encodeCalls := 0
        raised := false } := by
    simp only [buildVectorDatabase]
    rw [if_neg (Bool.false_ne_true), hknown, if_neg hkne, hload]
    simp only [reconstructVectors, hrec, if_pos, hnew]
    rw [if_neg (by
      intro hand
      exact hremne hand.2)]
    rw [if_pos hremne]
    rw [enum_filter_all_lt chunks _ hlen, Bool.not_true, if_neg (Bool.false_ne_true)]
    have hfe : ((chunks.enum.filter (fun ic =>
        decide (ic.2.program ∉ pySortedSet (known.filter (fun p => decide (p ∉ live)))))).map
          (fun ic => idx.vectors.getD ic.1 default)).isEmpty = false := by
      rw [List.isEmpty_eq_false]
      simpa using hkeptne
    rw [hfe]
    rfl
  rw [hbuild]
  refine ⟨rfl, rfl, ?_, ?_⟩
  · rw [show (Mana.Chunk.program : Chunk → String) = fun c => c.program from rfl]
    rw [enum_filter_program_map_snd]
  · intro st hst
    have hx := Option.some.inj hst
    subst hx
    ext p
    simp only [saveVectorDatabase, List.mem_toFinset, (pySorted_perm _).mem_iff,
      List.mem_filter, mem_pySortedSet]
    simp only [decide_not, Bool.not_eq_eq_eq_not, Bool.not_true, decide_eq_false_iff_not,
      not_and, Decidable.not_not, decide_implies, dite_eq_ite, Bool.if_true_right,
      Bool.or_eq_true, decide_eq_true_eq]
    constructor
    · rintro ⟨hpk, hp⟩
      rcases hp with hp | hp
      · exact absurd hpk hp
      · exact hp
    · intro hpl
      exact ⟨hsub p hpl, Or.inr hpl⟩


/-- Environment for the C5 witness: consistent three-entry store with
known = {a, b, c}. -/
def c5wEnv : Env Vec :=
  { disk :=
      { faissFile := some (some { vectors := [[1], [2], [3]], reconstructOk := true })
        chunksFile := some (some [mkChunk "a" "ay", mkChunk "b" "by", mkChunk "c" "cy"])
        metadataFile := some (some
          { num_chunks := 3, num_programs := 3, dimension := 1,
            indexed_at := "t0", programs := ["a", "b", "c"] }) }
    resolve := fun _ => none
    encode := fun ts => Except.ok (ts.map (fun _ => [1]))
    normalize := id
    dim := List.length
    now := "t1" }

/-- C5 witness: the amended removal-only theorem applied to
known = {a, b, c}, live = {a, c}. -/
theorem c5_witness :
    (buildVectorDatabase c5wEnv ["a", "c"] false false).encodeCalls = 0 ∧
    (buildVectorDatabase c5wEnv ["a", "c"] false false).raised = false :=
  ⟨(c5_removal_only_amended c5wEnv false ["a", "c"] ["a", "b", "c"]
      { vectors := [[1], [2], [3]], reconstructOk := true }
      [mkChunk "a" "ay", mkChunk "b" "by", mkChunk "c" "cy"]
      rfl (by decide) rfl rfl (by decide) (by decide) (by decide) (by decide)).1,
   (c5_removal_only_amended c5wEnv false ["a", "c"] ["a", "b", "c"]
      { vectors := [[1], [2], [3]], reconstructOk := true }
      [mkChunk "a" "ay", mkChunk "b" "by", mkChunk "c" "cy"]
      rfl (by decide) rfl rfl (by decide) (by decide) (by decide) (by decide)).2.1⟩


/-! ### C6 : idempotence of incremental builds -/

/-- Overwrite the save timestamp of a run's saved snapshot. -/
def setNow (t : String) (r : BuildResult V) : BuildResult V :=
  { r with saved := r.saved.map (fun st =>
      { st with metadata := { st.metadata with indexed_at := t } }) }

/-- Changing the timestamp does not change the scanning stage. -/
theorem resolvePairs_now (env : Env V) (t : String) (ps : List String) :
    resolvePairs { env with now := t } ps = resolvePairs env ps := by
  cases env
  rfl

/-- Changing the timestamp does not change the embedding stage. -/
theorem embedStage_now (env : Env V) (t : String) (cb : Bool) (texts : List String) :
    embedStage { env with now := t } cb texts = embedStage env cb texts := by
  cases env
  rfl

/-- Changing the timestamp only changes the `indexed_at` metadata field of a
save. -/
theorem saveVectorDatabase_now (env : Env V) (t : String) (c : List Chunk)
    (e : List V) (p : List String) :
    saveVectorDatabase { env with now := t } c e p =
      { saveVectorDatabase env c e p with
        metadata := { (saveVectorDatabase env c e p).metadata with indexed_at := t } } := by
  cases env
  rfl

/-- The save timestamp is the only thing `env.now` influences in phase 2. -/
theorem buildPhase2_now [Inhabited V] (env : Env V) (t : String) (cb : Bool)
    (ec : List Chunk) (ee : Option (List V)) (ep ps : List String) :
    buildPhase2 { env with now := t } cb ec ee ep ps =
      setNow t (buildPhase2 env cb ec ee ep ps) := by
  simp only [buildPhase2, resolvePairs_now, embedStage_now, saveVectorDatabase_now]
  split
  · rfl
  · split
    · rfl
    · split
      · rfl
      · rfl

/-- The save timestamp is the only thing `env.now` influences in a build. -/
theorem buildVectorDatabase_now [Inhabited V] (env : Env V) (t : String)
    (programs : List String) (force cb : Bool) :
    buildVectorDatabase { env with now := t } programs force cb =
      setNow t (buildVectorDatabase env programs force cb) := by
  simp only [buildVectorDatabase, saveVectorDatabase_now]
  generalize (if force = true then ([] : List String) else get_indexed_programs env.disk) = ep
  split
  · exact buildPhase2_now env t cb _ _ _ _
  · split
    · rfl
    · split
      · split
        · rfl
        · split
          · split
            · rfl
            · exact buildPhase2_now env t cb _ _ _ _
          · exact buildPhase2_now env t cb _ _ _ _
      · exact buildPhase2_now env t cb _ _ _ _

/-- A phase-2 run that saved nothing and raised nothing returned on one of
the early paths: it made no encoder call, and it does so for either value of
the callback flag. -/
theorem buildPhase2_ok_none [Inhabited V] (env : Env V) (cb : Bool)
    (ec : List Chunk) (ee : Option (List V)) (ep ps : List String)
    (hsv : (buildPhase2 env cb ec ee ep ps).saved = none)
    (hrs : (buildPhase2 env cb ec ee ep ps).raised = false) :
    ∀ cb', buildPhase2 env cb' ec ee ep ps =
      { saved := none, encodeCalls := 0, raised := false } := by
  intro cb'
  revert hsv hrs
  simp only [buildPhase2]
  split
  · intro _ _
    rfl
  · split
    · intro _ _
      rfl
    · split
      · intro _ hrs
        simp at hrs
      · intro hsv _
        simp at hsv

/-- A build that saved nothing and raised nothing returned early: no encoder
call was made, for either value of the callback flag. -/
theorem buildVectorDatabase_ok_none [Inhabited V] (env : Env V)
    (programs : List String) (force cb : Bool)
    (hsv : (buildVectorDatabase env programs force cb).saved = none)
    (hrs : (buildVectorDatabase env programs force cb).raised = false) :
    ∀ cb', buildVectorDatabase env programs force cb' =
      { saved := none, encodeCalls := 0, raised := false } := by
  intro cb'
  revert hsv hrs
  simp only [buildVectorDatabase]
  generalize (if force = true then ([] : List String) else get_indexed_programs env.disk) = ep
  split
  · exact fun hsv hrs => buildPhase2_ok_none env cb _ _ _ _ hsv hrs cb'
  · split
    · intro _ _
      rfl
    · split
      · split
        · intro _ hrs
          simp at hrs
        · split
          · split
            · intro hsv _
              simp at hsv
            · exact fun hsv hrs => buildPhase2_ok_none env cb _ _ _ _ hsv hrs cb'
          · exact fun hsv hrs => buildPhase2_ok_none env cb _ _ _ _ hsv hrs cb'
      · exact fun hsv hrs => buildPhase2_ok_none env cb _ _ _ _ hsv hrs cb'


/-- What a snapshot saved by phase 2 looks like: merged chunks, sorted
deduplicated merged program list, normalised vectors, and consistent
counts. -/
theorem buildPhase2_saved_props [Inhabited V] (env : Env V) (cb : Bool)
    (ec : List Chunk) (ee : Option (List V)) (ep ps : List String) (st : Store V)
    (h : (buildPhase2 env cb ec ee ep ps).saved = some st) :
    st.metadata.programs =
      pySorted (pySortedSet (ep ++ (resolvePairs env ps).map (fun pt => pt.1))) ∧
    st.chunks = ec ++ (resolvePairs env ps).map (fun pt => mkChunk pt.1 pt.2) ∧
    (∃ E, st.vectors = E.map env.normalize ∧
      st.metadata.dimension = (match E with | [] => 384 | v :: _ => env.dim v)) ∧
    st.metadata.num_chunks = st.chunks.length ∧
    st.metadata.num_programs = st.metadata.programs.length := by
  revert h
  simp only [buildPhase2]
  split
  · intro h
    simp at h
  · split
    · intro h
      simp at h
    · split
      · intro h
        simp at h
      · intro h
        have hst := (Option.some.inj h).symm
        subst hst
        refine ⟨rfl, rfl, ⟨_, rfl, rfl⟩, ?_, ?_⟩
        · simp [saveVectorDatabase]
        · show (pySortedSet (ep ++ _)).length = (pySorted (pySortedSet (ep ++ _))).length
          exact (pySorted_perm _).length_eq.symm

/-- Set-level properties of the merged program list saved by phase 2:
contained in the live set; any live identifier missing from it failed to
resolve; sorted and duplicate-free. -/
theorem merge_programs_props (env : Env V) (live ep ps : List String)
    (hep : ∀ p ∈ ep, p ∈ live)
    (hps : ∀ p ∈ live, p ∉ ep → p ∈ ps)
    (hpsl : ∀ p ∈ ps, p ∈ live) :
    (∀ p ∈ pySorted (pySortedSet (ep ++ (resolvePairs env ps).map (fun pt => pt.1))),
      p ∈ live) ∧
    (∀ p ∈ live,
      p ∉ pySorted (pySortedSet (ep ++ (resolvePairs env ps).map (fun pt => pt.1))) →
      env.resolve p = none) ∧
    (List.Sorted (fun a b => a ≤ b)
        (pySorted (pySortedSet (ep ++ (resolvePairs env ps).map (fun pt => pt.1)))) ∧
      (pySorted (pySortedSet (ep ++ (resolvePairs env ps).map (fun pt => pt.1)))).Nodup) := by
  have hmem : ∀ p, p ∈ pySorted (pySortedSet (ep ++ (resolvePairs env ps).map
      (fun pt => pt.1))) ↔ (p ∈ ep ∨ p ∈ (resolvePairs env ps).map (fun pt => pt.1)) := by
    intro p
    rw [(pySorted_perm _).mem_iff, mem_pySortedSet, List.mem_append]
  have hres : ∀ p ∈ (resolvePairs env ps).map (fun pt => pt.1), p ∈ ps := by
    intro p hp
    simp only [List.mem_map] at hp
    obtain ⟨pt, hpt, rfl⟩ := hp
    simp only [resolvePairs, List.mem_filterMap] at hpt
    obtain ⟨a, ha, heq⟩ := hpt
    cases hra : env.resolve a with
    | none => rw [hra] at heq; cases heq
    | some tx =>
      rw [hra, Option.map_some'] at heq
      have hpt2 := Option.some.inj heq
      rw [← hpt2]
      exact ha
  refine ⟨?_, ?_, ?_⟩
  · intro p hp
    rcases (hmem p).mp hp with hp | hp
    · exact hep p hp
    · exact hpsl p (hres p hp)
  · intro p hpl hpn
    rw [hmem] at hpn
    push_neg at hpn
    obtain ⟨hpe, hpr⟩ := hpn
    have hpps : p ∈ ps := hps p hpl hpe
    cases hra : env.resolve p with
    | none => rfl
    | some tx =>
      exfalso
      apply hpr
      simp only [List.mem_map]
      refine ⟨(p, tx), ?_, rfl⟩
      simp only [resolvePairs, List.mem_filterMap]
      exact ⟨p, hpps, by rw [hra]; rfl⟩
  · rw [pySorted_eq_self (pySortedSet_sorted _)]
    exact ⟨pySortedSet_sorted _, pySortedSet_nodup _⟩


theorem mem_filter_removed_iff (known live : List String) (p : String) :
    p ∈ known.filter (fun q => q ∉ pySortedSet (known.filter (fun r => r ∉ live))) ↔
      p ∈ known ∧ p ∈ live := by
  simp only [List.mem_filter, mem_pySortedSet]
  simp only [decide_not, Bool.not_eq_eq_eq_not, Bool.not_true, decide_eq_false_iff_not,
    not_and, Decidable.not_not, decide_implies, dite_eq_ite, Bool.if_true_right,
    Bool.or_eq_true, decide_eq_true_eq]
  constructor
  · rintro ⟨hpk, hp | hp⟩
    · exact absurd hpk hp
    · exact ⟨hpk, hp⟩
  · rintro ⟨hpk, hpl⟩
    exact ⟨hpk, Or.inr hpl⟩

theorem subset_of_sortedSet_filter_nil {a b : List String}
    (h : pySortedSet (a.filter (fun p => p ∉ b)) = []) : ∀ p ∈ a, p ∈ b := by
  rw [pySortedSet_eq_nil_iff, List.filter_eq_nil_iff] at h
  intro p hp
  have := h p hp
  simpa using this

theorem buildVectorDatabase_saved_props [Inhabited V] (env : Env V) (live : List String)
    (cb : Bool) (st : Store V)
    (h : (buildVectorDatabase env live false cb).saved = some st) :
    (∀ p ∈ st.metadata.programs, p ∈ live) ∧
    (∀ p ∈ live, p ∉ st.metadata.programs → env.resolve p = none) ∧
    ((∀ p ∈ live, p ∈ st.metadata.programs) ∨
      (List.Sorted (fun a b => a ≤ b) st.metadata.programs ∧ st.metadata.programs.Nodup)) ∧
    (∃ E, st.vectors = E.map env.normalize ∧
      st.metadata.dimension = (match E with | [] => 384 | v :: _ => env.dim v)) ∧
    st.metadata.num_chunks = st.chunks.length ∧
    st.metadata.num_programs = st.metadata.programs.length := by
  revert h
  simp only [buildVectorDatabase]
  generalize (if false = true then ([] : List String) else get_indexed_programs env.disk) = known
  split
  · -- fresh path: phase 2 with no existing data
    intro h
    obtain ⟨hprog, hchunks, hE, h5, h6⟩ := buildPhase2_saved_props env cb [] none [] live st h
    have hm := merge_programs_props env live [] live
      (fun p hp => absurd hp (List.not_mem_nil p))
      (fun p hp _ => hp) (fun p hp => hp)
    rw [← hprog] at hm
    exact ⟨hm.1, hm.2.1, Or.inr hm.2.2, hE, h5, h6⟩
  · split
    · -- up to date: nothing saved
      intro h
      simp at h
    · split
      · -- removals present
        split
        · -- a kept index beyond the reconstructed rows: IndexError, no save
          intro h
          simp at h
        · split
          · -- no new programs: removal-only immediate save (or nothing)
            rename_i hupdate hrm hoor hnew
            split
            · -- vectors reconstructed: immediate save
              rename_i fe hfe
              intro h
              have hst := (Option.some.inj h).symm
              subst hst
              have hsub : ∀ p ∈ live, p ∈ known := subset_of_sortedSet_filter_nil hnew
              have hleft : ∀ p ∈ live, p ∈ pySorted (known.filter (fun q =>
                  q ∉ pySortedSet (known.filter (fun r => r ∉ live)))) := by
                intro p hp
                rw [(pySorted_perm _).mem_iff, mem_filter_removed_iff]
                exact ⟨hsub p hp, hp⟩
              refine ⟨?_, ?_, Or.inl hleft, ⟨fe, rfl, rfl⟩, rfl,
                (pySorted_perm _).length_eq.symm⟩
              · intro p hp
                have hp' : p ∈ pySorted (known.filter (fun q =>
                    q ∉ pySortedSet (known.filter (fun r => r ∉ live)))) := hp
                rw [(pySorted_perm _).mem_iff, mem_filter_removed_iff] at hp'
                exact hp'.2
              · intro p hpl hpn
                exact absurd (hleft p hpl) hpn
            · -- vectors not reconstructible and nothing new: phase 2 is a no-op
              intro h
              rw [hnew] at h
              simp [buildPhase2] at h
          · -- removals and new programs: phase 2 on the filtered store
            rename_i hupdate hrm hoor hnew
            intro h
            obtain ⟨hprog, hchunks, hE, h5, h6⟩ := buildPhase2_saved_props env cb _ _ _ _ st h
            have hm := merge_programs_props env live
              (known.filter (fun q => q ∉ pySortedSet (known.filter (fun r => r ∉ live))))
              (pySortedSet (live.filter (fun p => p ∉ known)))
              (fun p hp => ((mem_filter_removed_iff known live p).mp hp).2)
              (fun p hpl hpe => by
                rw [mem_pySortedSet, List.mem_filter]
                refine ⟨hpl, ?_⟩
                simp only [decide_eq_true_eq]
                intro hpk
                exact hpe ((mem_filter_removed_iff known live p).mpr ⟨hpk, hpl⟩))
              (fun p hp => by
                rw [mem_pySortedSet, List.mem_filter] at hp
                exact hp.1)
            rw [← hprog] at hm
            exact ⟨hm.1, hm.2.1, Or.inr hm.2.2, hE, h5, h6⟩
      · -- no removals: phase 2 on the store as loaded
        rename_i hupdate hrm
        intro h
        obtain ⟨hprog, hchunks, hE, h5, h6⟩ := buildPhase2_saved_props env cb _ _ _ _ st h
        have hknsub : ∀ p ∈ known, p ∈ live := by
          rw [not_not] at hrm
          exact subset_of_sortedSet_filter_nil hrm
        have hm := merge_programs_props env live known
          (pySortedSet (live.filter (fun p => p ∉ known)))
          hknsub
          (fun p hpl hpe => by
            rw [mem_pySortedSet, List.mem_filter]
            exact ⟨hpl, by simpa using hpe⟩)
          (fun p hp => by
            rw [mem_pySortedSet, List.mem_filter] at hp
            exact hp.1)
        rw [← hprog] at hm
        exact ⟨hm.1, hm.2.1, Or.inr hm.2.2, hE, h5, h6⟩

/-- Reading the known identifiers right after a save yields the saved
program list. -/
theorem get_indexed_programs_writeStore (st : Store V) :
    get_indexed_programs (writeStore st) = st.metadata.programs := rfl

/-- Loading right after a save succeeds, with a reconstructible index. -/
theorem load_vector_database_writeStore (st : Store V) :
    load_vector_database (writeStore st) =
      some ({ vectors := st.vectors, reconstructOk := true }, st.chunks) := rfl

/-- An incremental build on a disk that holds a snapshot whose identifiers
are contained in the live set, whose missing live identifiers all fail to
resolve, and whose identifier list is sorted and duplicate-free unless it
already covers the live set, either returns without saving or re-saves
exactly the held chunks, vectors and program list — with zero encoder calls
either way. -/
theorem build_on_saved [Inhabited V] (env : Env V) (live : List String) (cb : Bool)
    (st : Store V)
    (hdisk : env.disk = writeStore st)
    (h1 : ∀ p ∈ st.metadata.programs, p ∈ live)
    (h2 : ∀ p ∈ live, p ∉ st.metadata.programs → env.resolve p = none)
    (h3 : (∀ p ∈ live, p ∈ st.metadata.programs) ∨
      (List.Sorted (fun a b => a ≤ b) st.metadata.programs ∧ st.metadata.programs.Nodup)) :
    buildVectorDatabase env live false cb =
      { saved := none, encodeCalls := 0, raised := false } ∨
    (buildVectorDatabase env live false cb =
      { saved := some (saveVectorDatabase env st.chunks st.vectors st.metadata.programs)
        encodeCalls := 0
        raised := false } ∧
      List.Sorted (fun a b => a ≤ b) st.metadata.programs ∧
      st.metadata.programs.Nodup) := by
  have hrm : pySortedSet (st.metadata.programs.filter (fun p => p ∉ live)) = [] := by
    rw [pySortedSet_eq_nil_iff, List.filter_eq_nil_iff]
    intro p hp
    simp [h1 p hp]
  simp only [buildVectorDatabase, hdisk, get_indexed_programs_writeStore,
    load_vector_database_writeStore, reconstructVectors, if_true]
  rw [if_neg (Bool.false_ne_true), hrm]
  by_cases hP : st.metadata.programs = []
  · left
    rw [if_pos hP]
    simp only [buildPhase2]
    split
    · rfl
    · have hrp : resolvePairs env live = [] := by
        simp only [resolvePairs, List.filterMap_eq_nil_iff]
        intro a ha
        rw [h2 a ha (by rw [hP]; exact List.not_mem_nil a)]
        rfl
      rw [if_pos ⟨hrp, trivial⟩]
  · rw [if_neg hP]
    by_cases hN : pySortedSet (List.filter (fun p => decide (p ∉ st.metadata.programs)) live) = []
    · left
      rw [hN, if_pos ⟨rfl, rfl⟩]
    · rw [if_neg (fun hand => hN hand.1), if_neg (not_not_intro rfl)]
      have hrp : resolvePairs env
          (pySortedSet (List.filter (fun p => decide (p ∉ st.metadata.programs)) live)) = [] := by
        simp only [resolvePairs, List.filterMap_eq_nil_iff]
        intro a ha
        rw [mem_pySortedSet, List.mem_filter] at ha
        rw [h2 a ha.1 (by simpa using ha.2)]
        rfl
      simp only [buildPhase2]
      rw [if_neg hN, hrp]
      by_cases hch : st.chunks = []
      · left
        rw [if_pos ⟨rfl, hch⟩]
      · right
        have h3r : List.Sorted (fun a b => a ≤ b) st.metadata.programs ∧
            st.metadata.programs.Nodup := by
          rcases h3 with h3l | h3r
          · exfalso
            apply hN
            rw [pySortedSet_eq_nil_iff, List.filter_eq_nil_iff]
            intro p hp
            simp [h3l p hp]
          · exact h3r
        refine ⟨?_, h3r.1, h3r.2⟩
        rw [if_neg (fun hand => hch hand.2)]
        rw [show List.map (fun pt : String × String => mkChunk pt.1 pt.2)
            ([] : List (String × String)) = [] from rfl, if_pos rfl]
        have hemb : (if (!st.vectors.isEmpty) = true then
              (if (!(List.isEmpty ([] : List V))) = true then st.vectors ++ [] else st.vectors)
            else ([] : List V)) = st.vectors := by
          cases st.vectors with
          | nil => simp
          | cons v vs => simp
        dsimp only
        rw [hemb, List.map_nil, List.append_nil, List.append_nil,
          pySortedSet_eq_self h3r.1 h3r.2]

/-- C6: running a second incremental (non-force) build with the same live
identifier set, on the disk state left by a first incremental build that did
not raise, makes zero encoder calls, raises nothing, and any snapshot it
saves agrees with the first build's snapshot in entries, vectors and every
metadata field except `built_at` (`indexed_at`).  The hypotheses on
`normalize` state facts true of `faiss.normalize_L2` (idempotent on already
normalised rows, shape-preserving). -/
theorem c6_idempotent_incremental [Inhabited V] (env₁ : Env V) (live : List String)
    (cb₁ cb₂ : Bool) (t₂ : String) (env₂ : Env V)
    (hIdem : ∀ v, env₁.normalize (env₁.normalize v) = env₁.normalize v)
    (hDim : ∀ v, env₁.dim (env₁.normalize v) = env₁.dim v)
    (hOk : (buildVectorDatabase env₁ live false cb₁).raised = false)
    (henv₂ : env₂ = { env₁ with
      disk := diskAfter env₁ (buildVectorDatabase env₁ live false cb₁), now := t₂ }) :
    (buildVectorDatabase env₂ live false cb₂).encodeCalls = 0 ∧
    (buildVectorDatabase env₂ live false cb₂).raised = false ∧
    ∀ st₂, (buildVectorDatabase env₂ live false cb₂).saved = some st₂ →
      ∃ st₁, (buildVectorDatabase env₁ live false cb₁).saved = some st₁ ∧
        st₂.chunks = st₁.chunks ∧ st₂.vectors = st₁.vectors ∧
        st₂.metadata = { st₁.metadata with indexed_at := t₂ } := by
  cases hsv : (buildVectorDatabase env₁ live false cb₁).saved with
  | none =>
    have henv : env₂ = { env₁ with now := t₂ } := by
      rw [henv₂]
      simp only [diskAfter, hsv]
    rw [henv, buildVectorDatabase_now env₁ t₂ live false cb₂,
      buildVectorDatabase_ok_none env₁ live false cb₁ hsv hOk cb₂]
    refine ⟨rfl, rfl, ?_⟩
    intro st₂ h
    simp [setNow] at h
  | some st₁ =>
    obtain ⟨f1, f2, f3, ⟨E, hE, hdim⟩, f5, f6⟩ :=
      buildVectorDatabase_saved_props env₁ live cb₁ st₁ hsv
    subst henv₂
    have hdisk : ({ env₁ with
        disk := diskAfter env₁ (buildVectorDatabase env₁ live false cb₁),
        now := t₂ } : Env V).disk = writeStore st₁ := by
      simp only [diskAfter, hsv]
    have hb := build_on_saved { env₁ with
        disk := diskAfter env₁ (buildVectorDatabase env₁ live false cb₁), now := t₂ }
      live cb₂ st₁ hdisk (fun p hp => f1 p hp) (fun p hp hpn => f2 p hp hpn) f3
    rcases hb with hb | ⟨hb, hsorted, hnodup⟩
    · rw [hb]
      refine ⟨rfl, rfl, ?_⟩
      intro st₂ h
      simp at h
    · rw [hb]
      refine ⟨rfl, rfl, ?_⟩
      intro st₂ h
      have hst2 := (Option.some.inj h).symm
      subst hst2
      refine ⟨st₁, rfl, rfl, ?_, ?_⟩
      · show st₁.vectors.map env₁.normalize = st₁.vectors
        rw [hE, List.map_map]
        exact List.map_congr_left (fun v _ => by
          simp only [Function.comp]
          exact hIdem v)
      · show (⟨st₁.chunks.length, st₁.metadata.programs.length,
            (match st₁.vectors with | [] => 384 | v :: _ => env₁.dim v), t₂,
            pySorted st₁.metadata.programs⟩ : Metadata) =
          { st₁.metadata with indexed_at := t₂ }
        rw [← f5, ← f6, pySorted_eq_self hsorted]
        have hdim2 : (match st₁.vectors with | [] => 384 | v :: _ => env₁.dim v) =
            st₁.metadata.dimension := by
          rw [hE, hdim]
          cases E with
          | nil => rfl
          | cons v vs => exact hDim v
        rw [hdim2]

/-- Environment for the C6 witness: fresh disk, one resolvable program. -/
def c6wEnv : Env Vec :=
  { disk := { faissFile := none, chunksFile := none, metadataFile := none }
    resolve := fun p => if p = "a" then some "x" else none
    encode := fun ts => Except.ok (ts.map (fun _ => [1]))
    normalize := id
    dim := List.length
    now := "t1" }

/-- C6 witness: after a first build of live = {a} from scratch, the second
incremental build on the resulting disk makes zero encoder calls. -/
theorem c6_witness :
    (buildVectorDatabase { c6wEnv with
      disk := diskAfter c6wEnv (buildVectorDatabase c6wEnv ["a"] false false)
      now := "t2" } ["a"] false false).encodeCalls = 0 :=
  (c6_idempotent_incremental c6wEnv ["a"] false false "t2" _
    (fun _ => rfl) (fun _ => rfl) (by decide) rfl).1


end Mana
